import Mathlib

/-!
Verification development for the `eso` crate: a three-way tagged value
(`Eso`) whose three cases (Ephemeral reference / Static reference / Owned
value) are each guarded by a type-level presence marker (`An` = present,
`No` = absent).  The definitions below are a shallow embedding of
`src/maybe.rs`, `src/unify.rs` and the `src/eso/` operation files:

  * Rust `An<A>(pub A)` becomes the one-field structure `An α`;
  * Rust `No<A>` (an uninhabited enum with a phantom parameter) becomes
    the empty inductive `No α`; `Impossible::absurd` becomes `No.absurd`;
  * the sealed `Maybe` trait becomes the `Maybe` typeclass; its
    associated type `Inner` is rendered as an `outParam` index `ι`, the
    usual Lean encoding of a Rust associated type, with the two
    instances on `An α` and `No α` exactly as in `maybe.rs`;
  * likewise `Unify`'s associated type `Out` and `Unify3`'s `Out3`
    become `outParam` indices of those classes;
  * `Result<T, E>` becomes `Except E T`, `Option<T>` becomes `Option τ`;
  * Rust by-value moves and `.clone()` calls are both the identity in
    the pure embedding, so `clone` simply disappears;
  * `&mut self` methods are embedded as state-passing functions
    returning the updated receiver.
-/

/-- Embedding of `maybe.rs` `An<A>`: a value of type `α` that is present
at the type level. -/
structure An (α : Type) : Type where
  mk ::
  val : α
deriving DecidableEq, Repr

/-- Embedding of `maybe.rs` `No<A>`: a value of type `α` that can never
exist.  The Rust type holds a `PhantomData<A>` and an uninhabited enum
`Nothing`, so the whole type is uninhabited with `α` phantom. -/
inductive No (α : Type) : Type

/-- Embedding of `Impossible::absurd`: from a (nonexistent) `No α`,
conjure up anything.  The Rust body is `match self.impossible {}`. -/
def No.absurd {α : Type} {β : Sort _} (x : No α) : β :=
  nomatch x

instance {α : Type} : DecidableEq (No α) :=
  fun a _ => a.absurd

/-- Embedding of the sealed trait `Maybe` from `maybe.rs`: the accessors
`inner`, `unwrap` and `unwrap_try`.  The associated type `Inner` is the
output parameter `ι`. -/
class Maybe (m : Type) (ι : outParam Type) where
  inner : m → ι
  unwrap : m → ι
  unwrap_try : {τ : Type} → m → (ι → Except ι τ) → Except m τ

/-- Embedding of `impl Maybe for An<A>`. -/
instance instMaybeAn {α : Type} : Maybe (An α) α where
  inner x := x.val
  unwrap x := x.val
  unwrap_try x f :=
    match f x.val with
    | .ok r => .ok r
    | .error inner => .error (An.mk inner)

/-- Embedding of `impl Maybe for No<A>`: every method is `absurd`. -/
instance instMaybeNo {α : Type} : Maybe (No α) α where
  inner x := x.absurd
  unwrap x := x.absurd
  unwrap_try x _ := x.absurd

/-- Embedding of the `Take<O>` capability trait from `borrow.rs` (the
Own-capability): clone the thing denoted by a generalized reference into
an owned form.  `own` defaults to `to_owned` in the source. -/
class Take (α : Type) (ω : Type) where
  to_owned : α → ω

/-- Embedding of `Take::own`, whose default body is `self.to_owned()`. -/
def Take.own {α ω : Type} [Take α ω] (a : α) : ω :=
  Take.to_owned a

/-- Embedding of the blanket `MTake`/`MOwnableRef` method `to_owned`
from `eso/req.rs`: `self.inner().to_owned()`. -/
def MTake.to_owned {m ι ω : Type} [Maybe m ι] [Take ι ω] (x : m) : ω :=
  Take.to_owned (Maybe.inner x)

/-- Embedding of the blanket `MTake`/`MOwnableRef` method `own` from
`eso/req.rs`: `self.unwrap().own()`. -/
def MTake.own {m ι ω : Type} [Maybe m ι] [Take ι ω] (x : m) : ω :=
  Take.own (Maybe.unwrap x)

/-- Embedding of the central `Eso` enum from `eso.rs`: a three-way
choice between an Ephemeral reference, a Static/shared reference and an
Owned value, each wrapped in its presence marker. -/
inductive Eso (me ms mo : Type) : Type
  | E : me → Eso me ms mo
  | S : ms → Eso me ms mo
  | O : mo → Eso me ms mo
deriving DecidableEq, Repr

/-- Embedding of `Eso::from_ref` (`eso/create.rs`): `Eso::E(An(e))`. -/
def Eso.from_ref {ε ms mo : Type} (e : ε) : Eso (An ε) ms mo :=
  Eso.E (An.mk e)

/-- Embedding of `Eso::from_static` (`eso/create.rs`): `Eso::S(An(s))`. -/
def Eso.from_static {me σ mo : Type} (s : σ) : Eso me (An σ) mo :=
  Eso.S (An.mk s)

/-- Embedding of `Eso::from_owned` (`eso/create.rs`): `Eso::O(An(o))`. -/
def Eso.from_owned {me ms ω : Type} (o : ω) : Eso me ms (An ω) :=
  Eso.O (An.mk o)

/-- Embedding of `Eso::is_ephemeral` (`eso/query.rs`):
`matches!(self, Eso::E(_))`. -/
def Eso.is_ephemeral {me ms mo : Type} : Eso me ms mo → Bool
  | .E _ => true
  | .S _ => false
  | .O _ => false

/-- Embedding of `Eso::is_static` (`eso/query.rs`):
`matches!(self, Eso::S(_))`. -/
def Eso.is_static {me ms mo : Type} : Eso me ms mo → Bool
  | .E _ => false
  | .S _ => true
  | .O _ => false

/-- Embedding of `Eso::is_owning` (`eso/query.rs`):
`matches!(self, Eso::O(_))`. -/
def Eso.is_owning {me ms mo : Type} : Eso me ms mo → Bool
  | .E _ => false
  | .S _ => false
  | .O _ => true

/-- Embedding of `Eso::is_reference` (`eso/query.rs`):
`!matches!(self, Eso::O(_))`. -/
def Eso.is_reference {me ms mo : Type} : Eso me ms mo → Bool
  | .E _ => true
  | .S _ => true
  | .O _ => false

/-- Embedding of `Eso::is_lasting` (`eso/query.rs`):
`!matches!(self, Eso::E(_))`. -/
def Eso.is_lasting {me ms mo : Type} : Eso me ms mo → Bool
  | .E _ => false
  | .S _ => true
  | .O _ => true

/-- Embedding of `Eso::try_split_ephemeral` (`eso/prove.rs`); the
success type is `x::E` (other two markers `No`), the failure type is
`x::so` (matched marker `No`, the other two unchanged). -/
def Eso.try_split_ephemeral {me ms mo eI sI oI : Type}
    [Maybe me eI] [Maybe ms sI] [Maybe mo oI] :
    Eso me ms mo → Except (Eso (No eI) ms mo) (Eso (An eI) (No sI) (No oI))
  | .E e => .ok (Eso.E (An.mk (Maybe.unwrap e)))
  | .S s => .error (Eso.S s)
  | .O o => .error (Eso.O o)

/-- Embedding of `Eso::try_split_static` (`eso/prove.rs`). -/
def Eso.try_split_static {me ms mo eI sI oI : Type}
    [Maybe me eI] [Maybe ms sI] [Maybe mo oI] :
    Eso me ms mo → Except (Eso me (No sI) mo) (Eso (No eI) (An sI) (No oI))
  | .S s => .ok (Eso.S (An.mk (Maybe.unwrap s)))
  | .E e => .error (Eso.E e)
  | .O o => .error (Eso.O o)

/-- Embedding of `Eso::try_split_owned` (`eso/prove.rs`). -/
def Eso.try_split_owned {me ms mo eI sI oI : Type}
    [Maybe me eI] [Maybe ms sI] [Maybe mo oI] :
    Eso me ms mo → Except (Eso me ms (No oI)) (Eso (No eI) (No sI) (An oI))
  | .O o => .ok (Eso.O (An.mk (Maybe.unwrap o)))
  | .E e => .error (Eso.E e)
  | .S s => .error (Eso.S s)

/-- Embedding of `Eso::safe_unwrap_ephemeral` (`eso/inside.rs`),
callable only on `Eso<An<E>, No<S>, No<O>>`. -/
def Eso.safe_unwrap_ephemeral {ε σ ω : Type} : Eso (An ε) (No σ) (No ω) → ε
  | .E e => e.val
  | .S s => s.absurd
  | .O o => o.absurd

/-- Embedding of `Eso::safe_unwrap_static` (`eso/inside.rs`), callable
only on `Eso<No<E>, An<S>, No<O>>`. -/
def Eso.safe_unwrap_static {ε σ ω : Type} : Eso (No ε) (An σ) (No ω) → σ
  | .S s => s.val
  | .E e => e.absurd
  | .O o => o.absurd

/-- Embedding of `Eso::safe_unwrap_owned` (`eso/inside.rs`), callable
only on `Eso<No<E>, No<S>, An<O>>`. -/
def Eso.safe_unwrap_owned {ε σ ω : Type} : Eso (No ε) (No σ) (An ω) → ω
  | .O o => o.val
  | .E e => e.absurd
  | .S s => s.absurd

/-- Embedding of `Eso::outer_map` (`eso/manipulate.rs`): apply one of
the given functions to the active `Maybe` itself, selected by case. -/
def Eso.outer_map {me ms mo me1 ms1 mo1 : Type}
    (ef : me → me1) (sf : ms → ms1) (of' : mo → mo1) :
    Eso me ms mo → Eso me1 ms1 mo1
  | .E e => Eso.E (ef e)
  | .S s => Eso.S (sf s)
  | .O o => Eso.O (of' o)

/-- Embedding of the `Unify` trait from `unify.rs`: the unification of
two `Maybe` (or `Eso`) types.  The associated type `Out` is the output
parameter `δ`, and `inject_a`/`inject_b` are the two injections. -/
class Unify (α : Type) (β : Type) (δ : outParam Type) where
  inject_a : α → δ
  inject_b : β → δ

/-- Embedding of `impl Unify<An<T>> for No<U>` (`unify.rs`): the result
is the present side `An<T>`. -/
instance instUnifyNoAn {υ τ : Type} : Unify (No υ) (An τ) (An τ) where
  inject_a x := x.absurd
  inject_b b := b

/-- Embedding of `impl Unify<No<U>> for An<T>` (`unify.rs`): the result
is the present side `An<T>`. -/
instance instUnifyAnNo {τ υ : Type} : Unify (An τ) (No υ) (An τ) where
  inject_a a := a
  inject_b b := b.absurd

/-- Embedding of `impl Unify<An<T>> for An<T>` (`unify.rs`): two present
markers of the same inner type unify to themselves. -/
instance instUnifyAnAn {τ : Type} : Unify (An τ) (An τ) (An τ) where
  inject_a a := a
  inject_b b := b

/-- Embedding of `impl Unify<No<U>> for No<T>` (`unify.rs`): two absent
markers unify to the left-hand absent marker. -/
instance instUnifyNoNo {τ υ : Type} : Unify (No τ) (No υ) (No τ) where
  inject_a a := a
  inject_b b := b.absurd

/-- Embedding of `impl Unify<Eso<BE, BS, BO>> for Eso<AE, AS, AO>`
(`unify.rs`): unify componentwise via `outer_map`. -/
instance instUnifyEso {aE aS aO bE bS bO dE dS dO : Type}
    [Unify aE bE dE] [Unify aS bS dS] [Unify aO bO dO] :
    Unify (Eso aE aS aO) (Eso bE bS bO) (Eso dE dS dO) where
  inject_a x := x.outer_map (Unify.inject_a bE) (Unify.inject_a bS) (Unify.inject_a bO)
  inject_b x := x.outer_map (Unify.inject_b aE) (Unify.inject_b aS) (Unify.inject_b aO)

/-- Embedding of the `Unify3` utility trait from `unify.rs`: apply the
`Unify` rules twice to merge three types.  The associated type `Out3` is
the output parameter `δ`. -/
class Unify3 (α β γ : Type) (δ : outParam Type) where
  inject3_a : α → δ
  inject3_b : β → δ
  inject3_c : γ → δ

/-- Embedding of the blanket `impl Unify3<B, C> for A` (`unify.rs`). -/
instance instUnify3 {α β γ δ ο : Type} [Unify α β δ] [Unify δ γ ο] :
    Unify3 α β γ ο where
  inject3_a a := Unify.inject_a γ (Unify.inject_a β a : δ)
  inject3_b b := Unify.inject_a γ (Unify.inject_b α b : δ)
  inject3_c c := Unify.inject_b δ c

/-- Embedding of `Eso::unify` (`eso/prove.rs`): merge the three possible
values into one by the `Unify` rules. -/
def Eso.unify {me ms mo δ : Type} [Unify3 me ms mo δ] :
    Eso me ms mo → δ
  | .E e => Unify3.inject3_a (β := ms) (γ := mo) e
  | .S s => Unify3.inject3_b (α := me) (γ := mo) s
  | .O o => Unify3.inject3_c (α := me) (β := ms) o

/-- Embedding of the `Relax` trait from `maybe.rs`: the safe casts
between `Maybe`s. -/
class Relax (m : Type) (into : Type) where
  relax : m → into

/-- Embedding of `impl Relax<An<A>> for An<A>` (`maybe.rs`): an `An<A>`
may only be cast into itself, and the cast is the identity. -/
instance instRelaxAnAn {α : Type} : Relax (An α) (An α) where
  relax a := a

/-- Embedding of `impl Relax<An<B>> for No<A>` (`maybe.rs`): a `No` may
be cast into any `An`, via `absurd`. -/
instance instRelaxNoAn {α β : Type} : Relax (No α) (An β) where
  relax n := n.absurd

/-- Embedding of `impl Relax<No<B>> for No<A>` (`maybe.rs`): a `No` may
be cast into any other `No`, via `absurd`. -/
instance instRelaxNoNo {α β : Type} : Relax (No α) (No β) where
  relax n := n.absurd

/-- Embedding of `Eso::relax` (`eso/prove.rs`): relax each marker with
its `Relax` impl, preserving the case. -/
def Eso.relax {me ms mo me1 ms1 mo1 : Type}
    [Relax me me1] [Relax ms ms1] [Relax mo mo1] :
    Eso me ms mo → Eso me1 ms1 mo1
  | .E e => Eso.E (Relax.relax e)
  | .S s => Eso.S (Relax.relax s)
  | .O o => Eso.O (Relax.relax o)

/-- Embedding of `Eso::to_mut` (`eso/inside.rs`).  The Rust method takes
`&mut self`, first replaces a non-owned case by
`Eso::O(An(r.to_owned()))`, then returns a mutable reference to the now
guaranteed owned value.  Here the state change is returned as the first
component, the referent of the returned `&mut O` as the second; the
`unreachable!()` arms of the source's second match are eliminated
because the owned payload is tracked directly. -/
def Eso.to_mut {me ms eI sI ω : Type} [Maybe me eI] [Maybe ms sI]
    [Take eI ω] [Take sI ω]
    (x : Eso me ms (An ω)) : Eso me ms (An ω) × ω :=
  let o : ω :=
    match x with
    | .E e => MTake.to_owned e
    | .S s => MTake.to_owned s
    | .O o => o.val
  (Eso.O (An.mk o), o)

/-- Embedding of `Eso::mutate` (`eso/inside.rs`).  The Rust method takes
`&mut self` and `f: FnOnce(&mut O) -> T`: a non-owned case is first
replaced by `Eso::O(An(r.to_owned()))`, then `f` runs on the owned
value.  The closure is embedded as `f : ω → ω × τ` (its effect on the
referent plus its return value); the updated receiver is returned
alongside. -/
def Eso.mutate {me ms eI sI ω τ : Type} [Maybe me eI] [Maybe ms sI]
    [Take eI ω] [Take sI ω]
    (f : ω → ω × τ) (x : Eso me ms (An ω)) : Eso me ms (An ω) × τ :=
  let o : ω :=
    match x with
    | .E e => MTake.to_owned e
    | .S s => MTake.to_owned s
    | .O o => o.val
  let p := f o
  (Eso.O (An.mk p.1), p.2)

/-- Embedding of `Eso::try_get_mut` (`eso/inside.rs` and `eso.rs`).  The
Rust method takes `&mut self` and returns `Option<&mut MO::Inner>`
without ever reassigning the receiver, so the embedding is a pure
projection: the value behind the returned mutable reference, when the
active case is owned. -/
def Eso.try_get_mut {me ms mo oI : Type} [Maybe mo oI] :
    Eso me ms mo → Option oI
  | .E _ => none
  | .S _ => none
  | .O o => some (Maybe.inner o)

/-- Embedding of `Eso::into_static` (`eso/transform.rs`): an ephemeral
reference is owned via `Take::own`, a static reference and an owned
value pass through; the result type is `x::sO` (ephemeral marker `No`). -/
def Eso.into_static {me ms mo eI oI : Type} [Maybe me eI] [Maybe mo oI]
    [Take eI oI] :
    Eso me ms mo → Eso (No eI) ms (An oI)
  | .E e => Eso.O (An.mk (MTake.own e))
  | .S s => Eso.S s
  | .O o => Eso.O (An.mk (Maybe.unwrap o))

/-- Embedding of `Eso::to_static` (`eso/transform.rs`), the clone
variant of `into_static`: `e.to_owned()`, `s.clone()`,
`o.clone().unwrap()`.  Clones are the identity in the pure embedding. -/
def Eso.to_static {me ms mo eI sI oI : Type}
    [Maybe me eI] [Maybe ms sI] [Maybe mo oI] [Take eI oI] :
    Eso me ms mo → Eso (No eI) ms (An oI)
  | .E e => Eso.O (An.mk (MTake.to_owned e))
  | .S s => Eso.S s
  | .O o => Eso.O (An.mk (Maybe.unwrap o))

/-- Embedding of `Eso::into_owning` (`eso/transform.rs`): any reference
is owned via `Take::own`, an owned value is moved through; the result
type is `x::O` (only the owned marker `An`). -/
def Eso.into_owning {me ms mo eI sI oI : Type}
    [Maybe me eI] [Maybe ms sI] [Maybe mo oI] [Take eI oI] [Take sI oI] :
    Eso me ms mo → Eso (No eI) (No sI) (An oI)
  | .E e => Eso.O (An.mk (MTake.own e))
  | .S s => Eso.O (An.mk (MTake.own s))
  | .O o => Eso.O (An.mk (Maybe.unwrap o))

/-- Modelled from the spec: the `TryInternRef` capability trait is named
in `borrow.rs`'s conversion table but flagged there as an unimplemented
TODO; its method signature `fn try_intern_ref(&self) -> Option<T>` is
taken from the blanket `MTryInternRef` impl in `eso/req.rs`.  Interning
may be rejected, in which case `none` is returned. -/
class TryInternRef (α : Type) (τ : Type) where
  try_intern_ref : α → Option τ

/-- Modelled from the spec: the `TryIntern` capability trait is named in
`borrow.rs`'s conversion table but flagged there as an unimplemented
TODO; its method signature `fn try_intern(self) -> Result<T, Self>` is
taken from the blanket `MTryIntern` impl in `eso/req.rs`.  On failure
the `Err` carries back a `Self` value. -/
class TryIntern (α : Type) (τ : Type) where
  try_intern : α → Except α τ

/-- Embedding of the blanket `MTryInternRef` method from `eso/req.rs`:
`self.inner().try_intern_ref()`. -/
def MTryInternRef.try_intern_ref {m ι τ : Type} [Maybe m ι]
    [TryInternRef ι τ] (x : m) : Option τ :=
  TryInternRef.try_intern_ref (Maybe.inner x)

/-- Embedding of the blanket `MTryIntern` method from `eso/req.rs`:
`self.unwrap_try(|v| v.try_intern())`. -/
def MTryIntern.try_intern {m ι τ : Type} [Maybe m ι]
    [TryIntern ι τ] (x : m) : Except m τ :=
  Maybe.unwrap_try x TryIntern.try_intern

/-- Embedding of `Eso::try_intern_ephemeral` (`eso/transform.rs`): try
to intern an ephemeral reference into the static/shared case; an owned
value fails over unchanged; success type `x::S`, failure type `x::eo`. -/
def Eso.try_intern_ephemeral {me ms mo eI sI oI : Type}
    [Maybe me eI] [Maybe ms sI] [Maybe mo oI] [TryInternRef eI sI] :
    Eso me ms mo → Except (Eso me (No sI) mo) (Eso (No eI) (An sI) (No oI))
  | .E e =>
    match MTryInternRef.try_intern_ref e with
    | some interned => .ok (Eso.S (An.mk interned))
    | none => .error (Eso.E e)
  | .S s => .ok (Eso.S (An.mk (Maybe.unwrap s)))
  | .O o => .error (Eso.O o)

/-- Embedding of `Eso::try_intern` (`eso/transform.rs`): like
`try_intern_ephemeral`, but an owned value is also offered to the
interning capability via `MTryIntern::try_intern`. -/
def Eso.try_intern {me ms mo eI sI oI : Type}
    [Maybe me eI] [Maybe ms sI] [Maybe mo oI]
    [TryInternRef eI sI] [TryIntern oI sI] :
    Eso me ms mo → Except (Eso me (No sI) mo) (Eso (No eI) (An sI) (No oI))
  | .E e =>
    match MTryInternRef.try_intern_ref e with
    | some interned => .ok (Eso.S (An.mk interned))
    | none => .error (Eso.E e)
  | .S s => .ok (Eso.S (An.mk (Maybe.unwrap s)))
  | .O o =>
    match MTryIntern.try_intern (τ := sI) o with
    | .ok interned => .ok (Eso.S (An.mk interned))
    | .error o' => .error (Eso.O o')

/-- Embedding of `impl Take<String> for &'a str` (`borrow.rs`):
`self.to_string()`.  An ephemeral `&str` is represented in the embedding
by its `String` content, so the clone is the identity on that content. -/
instance instTakeString : Take String String where
  to_owned s := s

/-- Embedding of `impl<T: Clone> Take<T> for &'a T` (`borrow.rs`):
`(*self).clone()`, at `T = Nat`; a `&Nat` is represented by its value,
so the clone is the identity. -/
instance instTakeNat : Take Nat Nat where
  to_owned n := n

/-- Concrete interning capability used to instantiate the pluggable
`TryInternRef` interface in witnesses: a cache policy that accepts even
numbers and rejects odd ones. -/
instance instTryInternRefNat : TryInternRef Nat Nat where
  try_intern_ref n := if n % 2 = 0 then some n else none

/-- Concrete interning capability used to instantiate the pluggable
`TryIntern` interface in witnesses: accepts even numbers and gives the
value back unchanged on rejection. -/
instance instTryInternNat : TryIntern Nat Nat where
  try_intern n := if n % 2 = 0 then .ok n else .error n

/-- C1: for every value built by `from_ref`, `from_static` or
`from_owned`, exactly one of `try_split_ephemeral`, `try_split_static`,
`try_split_owned` succeeds — the one matching the constructor — the
other two fail, and safe-unwrapping the success gives back the
originally constructed value.  Mapping `safe_unwrap_*` over the result
states both that the matching split returns `Ok` and that its payload
safe-unwraps to the constructed value. -/
theorem c1_narrowing_exhaustiveness {ε σ ω : Type} :
    (∀ (ms mo sI oI : Type) [Maybe ms sI] [Maybe mo oI] (e : ε),
      Except.map Eso.safe_unwrap_ephemeral
          (Eso.try_split_ephemeral (Eso.from_ref e : Eso (An ε) ms mo)) = .ok e
        ∧ Eso.try_split_static (Eso.from_ref e : Eso (An ε) ms mo) =
            .error (Eso.E (An.mk e))
        ∧ Eso.try_split_owned (Eso.from_ref e : Eso (An ε) ms mo) =
            .error (Eso.E (An.mk e)))
    ∧ (∀ (me mo eI oI : Type) [Maybe me eI] [Maybe mo oI] (s : σ),
      Except.map Eso.safe_unwrap_static
          (Eso.try_split_static (Eso.from_static s : Eso me (An σ) mo)) = .ok s
        ∧ Eso.try_split_ephemeral (Eso.from_static s : Eso me (An σ) mo) =
            .error (Eso.S (An.mk s))
        ∧ Eso.try_split_owned (Eso.from_static s : Eso me (An σ) mo) =
            .error (Eso.S (An.mk s)))
    ∧ (∀ (me ms eI sI : Type) [Maybe me eI] [Maybe ms sI] (o : ω),
      Except.map Eso.safe_unwrap_owned
          (Eso.try_split_owned (Eso.from_owned o : Eso me ms (An ω))) = .ok o
        ∧ Eso.try_split_ephemeral (Eso.from_owned o : Eso me ms (An ω)) =
            .error (Eso.O (An.mk o))
        ∧ Eso.try_split_static (Eso.from_owned o : Eso me ms (An ω)) =
            .error (Eso.O (An.mk o))) := by
  refine ⟨fun ms mo sI oI _ _ e => ⟨rfl, rfl, rfl⟩,
          fun me mo eI oI _ _ s => ⟨rfl, rfl, rfl⟩,
          fun me ms eI sI _ _ o => ⟨rfl, rfl, rfl⟩⟩

/-- C5: whenever a `try_split_*` operation fails (the active case is not
the matched one), the returned `Err` has the same active case and
exactly the same contained marker value as the input; moreover a split
succeeds exactly when the active case is the matched one.  The `Err`
type carries the matched case's marker as `No`, so the equalities
typechecking is itself the type-level part of the claim. -/
theorem c5_try_split_failure_preserves_value
    {me ms mo eI sI oI : Type} [Maybe me eI] [Maybe ms sI] [Maybe mo oI] :
    (∀ x : Eso me ms mo,
      (Eso.try_split_ephemeral x).isOk = x.is_ephemeral
        ∧ (Eso.try_split_static x).isOk = x.is_static
        ∧ (Eso.try_split_owned x).isOk = x.is_owning)
    ∧ (∀ s : ms, Eso.try_split_ephemeral (Eso.S s : Eso me ms mo) = .error (Eso.S s))
    ∧ (∀ o : mo, Eso.try_split_ephemeral (Eso.O o : Eso me ms mo) = .error (Eso.O o))
    ∧ (∀ e : me, Eso.try_split_static (Eso.E e : Eso me ms mo) = .error (Eso.E e))
    ∧ (∀ o : mo, Eso.try_split_static (Eso.O o : Eso me ms mo) = .error (Eso.O o))
    ∧ (∀ e : me, Eso.try_split_owned (Eso.E e : Eso me ms mo) = .error (Eso.E e))
    ∧ (∀ s : ms, Eso.try_split_owned (Eso.S s : Eso me ms mo) = .error (Eso.S s)) := by
  refine ⟨fun x => ?_, fun _ => rfl, fun _ => rfl, fun _ => rfl,
          fun _ => rfl, fun _ => rfl, fun _ => rfl⟩
  cases x <;> exact ⟨rfl, rfl, rfl⟩

/-- C8: the case predicates are pure functions of the active case; for
every `Eso` exactly one of `is_ephemeral`, `is_static`, `is_owning` is
`true` (their count is 1), `is_reference` is the negation of
`is_owning`, and `is_lasting` is the negation of `is_ephemeral`. -/
theorem c8_case_predicates {me ms mo : Type} (x : Eso me ms mo) :
    x.is_ephemeral.toNat + x.is_static.toNat + x.is_owning.toNat = 1
      ∧ x.is_reference = !x.is_owning
      ∧ x.is_lasting = !x.is_ephemeral := by
  cases x <;> exact ⟨rfl, rfl, rfl⟩

/-- C10: `try_get_mut` returns `some` (the value the returned
`&mut MO::Inner` points at) exactly when the active case is owned, and
`none` on the ephemeral and static cases.  The source method never
reassigns its `&mut self` receiver, so — unlike `mutate`/`to_mut` —
the call converts nothing: the embedding is a pure projection of the
receiver, which is left unchanged by construction. -/
theorem c10_try_get_mut {me ms mo oI : Type} [Maybe mo oI] :
    (∀ x : Eso me ms mo, (Eso.try_get_mut x).isSome = x.is_owning)
    ∧ (∀ o : mo, Eso.try_get_mut (Eso.O o : Eso me ms mo) = some (Maybe.inner o))
    ∧ (∀ e : me, Eso.try_get_mut (Eso.E e : Eso me ms mo) = none)
    ∧ (∀ s : ms, Eso.try_get_mut (Eso.S s : Eso me ms mo) = none) := by
  refine ⟨fun x => ?_, fun _ => rfl, fun _ => rfl, fun _ => rfl⟩
  cases x <;> rfl

/-- C2: on any `Eso` whose owned marker is present, `mutate f` leaves
the value in the owned case; if the active case was already owned, `f`
runs on the existing owned value, otherwise the referenced value is
first cloned into the owned case via the Own-capability and `f` runs on
the fresh clone; `to_mut` likewise always leaves the value owned, its
returned mutable reference denoting the owned payload.  The original
referenced source datum (the input marker value `e` or `s`) is only read
through `MTake.to_owned`, never rewritten — in the pure embedding the
inputs are untouched by construction.  The concrete conjunct is the
spec's scenario: source data `"Hello "`, mutation appending `"World!"`,
result owned with content `"Hello World!"`. -/
theorem c2_clone_on_write {me ms eI sI ω τ : Type}
    [Maybe me eI] [Maybe ms sI] [Take eI ω] [Take sI ω] :
    (∀ (f : ω → ω × τ) (x : Eso me ms (An ω)), ((Eso.mutate f x).1).is_owning = true)
    ∧ (∀ (f : ω → ω × τ) (o : An ω),
      Eso.mutate f (Eso.O o : Eso me ms (An ω)) = (Eso.O (An.mk (f o.val).1), (f o.val).2))
    ∧ (∀ (f : ω → ω × τ) (e : me),
      Eso.mutate f (Eso.E e : Eso me ms (An ω)) =
        (Eso.O (An.mk (f (MTake.to_owned e)).1), (f (MTake.to_owned e)).2))
    ∧ (∀ (f : ω → ω × τ) (s : ms),
      Eso.mutate f (Eso.S s : Eso me ms (An ω)) =
        (Eso.O (An.mk (f (MTake.to_owned s)).1), (f (MTake.to_owned s)).2))
    ∧ (∀ x : Eso me ms (An ω),
      (Eso.to_mut x).1 = Eso.O (An.mk (Eso.to_mut x).2)
        ∧ ((Eso.to_mut x).1).is_owning = true)
    ∧ Eso.mutate (fun s => (s ++ "World!", ()))
        (Eso.from_ref "Hello " : Eso (An String) (An String) (An String)) =
      (Eso.O (An.mk "Hello World!"), ()) := by
  refine ⟨fun f x => ?_, fun f o => rfl, fun f e => rfl, fun f s => rfl,
          fun x => ?_, rfl⟩
  · cases x <;> rfl
  · cases x <;> exact ⟨rfl, rfl⟩

/-- C6: `into_static` converts the ephemeral case into the owned case
by applying the Own-capability (`MTake::own`) to the ephemeral
reference, while the static and owned cases pass their contained values
through (moved); `to_static` does the same with clones
(`MTake::to_owned` on the ephemeral reference, `clone` being the
identity in the pure embedding).  The result's ephemeral marker is the
type-level `No eI` — reflected value-wise by `is_ephemeral` being
`false` on every result. -/
theorem c6_into_static {me ms mo eI sI oI : Type}
    [Maybe me eI] [Maybe ms sI] [Maybe mo oI] [Take eI oI] :
    (∀ e : me, Eso.into_static (Eso.E e : Eso me ms mo) = Eso.O (An.mk (MTake.own e)))
    ∧ (∀ s : ms, Eso.into_static (Eso.S s : Eso me ms mo) = Eso.S s)
    ∧ (∀ o : mo, Eso.into_static (Eso.O o : Eso me ms mo) = Eso.O (An.mk (Maybe.unwrap o)))
    ∧ (∀ x : Eso me ms mo, (Eso.into_static x).is_ephemeral = false)
    ∧ (∀ e : me, Eso.to_static (Eso.E e : Eso me ms mo) = Eso.O (An.mk (MTake.to_owned e)))
    ∧ (∀ s : ms, Eso.to_static (Eso.S s : Eso me ms mo) = Eso.S s)
    ∧ (∀ o : mo, Eso.to_static (Eso.O o : Eso me ms mo) = Eso.O (An.mk (Maybe.unwrap o)))
    ∧ (∀ x : Eso me ms mo, (Eso.to_static x).is_ephemeral = false) := by
  refine ⟨fun _ => rfl, fun _ => rfl, fun _ => rfl, fun x => ?_,
          fun _ => rfl, fun _ => rfl, fun _ => rfl, fun x => ?_⟩
  · cases x <;> rfl
  · cases x <;> rfl

/-- C7: `into_owning` always yields a value in the owned case; on a
value whose markers already prove it owned, it is a pass-through; hence
`into_owning` composed with itself equals a single application, on every
input. -/
theorem c7_into_owning_idempotent {me ms mo eI sI oI : Type}
    [Maybe me eI] [Maybe ms sI] [Maybe mo oI] [Take eI oI] [Take sI oI] :
    (∀ x : Eso me ms mo, (Eso.into_owning x).is_owning = true)
    ∧ (∀ o : An oI,
      Eso.into_owning (Eso.O o : Eso (No eI) (No sI) (An oI)) = Eso.O o)
    ∧ (∀ x : Eso me ms mo,
      Eso.into_owning (Eso.into_owning x) = Eso.into_owning x) := by
  refine ⟨fun x => ?_, fun o => rfl, fun x => ?_⟩
  · cases x <;> rfl
  · cases x <;> rfl

/-- C3: the `Unify` merge rule.  Two present markers of the same inner
type unify to a present marker, both injections being the identity; a
present and an absent marker (either order, any inner type on the absent
side) unify to the present side, whose injection is the identity; two
absent markers unify to an absent marker (that conjunct's typechecking
records the type-level rule, its body being vacuous since `No` is
uninhabited).  Consequently unifying two `Eso`s of the same fully
present shape is the identity in both directions, and `Eso::unify` on a
nested value built from one case returns that case with its content
unchanged — the absent cases of the other sides yield to the present
one. -/
theorem c3_unify_merge_rules {α β ε σ ω : Type} :
    (∀ a : α, Unify.inject_a (An α) (An.mk a) = An.mk a)
    ∧ (∀ a : α, Unify.inject_b (An α) (An.mk a) = An.mk a)
    ∧ (∀ a : α, Unify.inject_a (No β) (An.mk a) = An.mk a)
    ∧ (∀ a : α, Unify.inject_b (No β) (An.mk a) = An.mk a)
    ∧ (∀ n : No α, Unify.inject_a (No β) n = n)
    ∧ (∀ x : Eso (An ε) (An σ) (An ω),
      Unify.inject_a (Eso (An ε) (An σ) (An ω)) x = x
        ∧ Unify.inject_b (Eso (An ε) (An σ) (An ω)) x = x)
    ∧ (∀ e : ε,
      Eso.unify (Eso.E (Eso.from_ref e : Eso (An ε) (No σ) (No ω)) :
          Eso (Eso (An ε) (No σ) (No ω)) (Eso (No ε) (An σ) (No ω))
            (Eso (No ε) (No σ) (An ω))) =
        (Eso.from_ref e : Eso (An ε) (An σ) (An ω)))
    ∧ (∀ s : σ,
      Eso.unify (Eso.S (Eso.from_static s : Eso (No ε) (An σ) (No ω)) :
          Eso (Eso (An ε) (No σ) (No ω)) (Eso (No ε) (An σ) (No ω))
            (Eso (No ε) (No σ) (An ω))) =
        (Eso.from_static s : Eso (An ε) (An σ) (An ω)))
    ∧ (∀ o : ω,
      Eso.unify (Eso.O (Eso.from_owned o : Eso (No ε) (No σ) (An ω)) :
          Eso (Eso (An ε) (No σ) (No ω)) (Eso (No ε) (An σ) (No ω))
            (Eso (No ε) (No σ) (An ω))) =
        (Eso.from_owned o : Eso (An ε) (An σ) (An ω))) := by
  refine ⟨fun _ => rfl, fun _ => rfl, fun _ => rfl, fun _ => rfl,
          fun n => n.absurd, fun x => ?_, fun _ => rfl, fun _ => rfl, fun _ => rfl⟩
  cases x <;> exact ⟨rfl, rfl⟩

/-- C4: the `Relax` conversion rules.  Relaxing a present marker is
possible only to a present marker of the unchanged inner type (the only
`Relax` instance with a present source is `An α → An α`) and is the
identity on the wrapped value; an absent marker relaxes into any present
or absent marker, no value ever transiting (the instances are `absurd`);
and no present-to-absent conversion exists — witnessed by the emptiness
of the would-be instance type `Relax (An Nat) (No Nat)`, the Rust
counterpart being a compile error.  Consequently `Eso::relax` preserves
the active case on every input, for every admissible instance
combination, and is the identity on any fully present value. -/
theorem c4_relax_rules {me ms mo me1 ms1 mo1 : Type}
    [Relax me me1] [Relax ms ms1] [Relax mo mo1] {α ε σ ω : Type} :
    (∀ a : α, (Relax.relax (An.mk a) : An α) = An.mk a)
    ∧ IsEmpty (Relax (An Nat) (No Nat))
    ∧ (∀ x : Eso me ms mo,
      ((Eso.relax x : Eso me1 ms1 mo1).is_ephemeral = x.is_ephemeral
        ∧ (Eso.relax x : Eso me1 ms1 mo1).is_static = x.is_static
        ∧ (Eso.relax x : Eso me1 ms1 mo1).is_owning = x.is_owning))
    ∧ (∀ x : Eso (An ε) (An σ) (An ω),
      (Eso.relax x : Eso (An ε) (An σ) (An ω)) = x) := by
  refine ⟨fun _ => rfl, ⟨fun inst => (inst.relax (An.mk 0)).absurd⟩,
          fun x => ?_, fun x => ?_⟩
  · cases x <;> exact ⟨rfl, rfl, rfl⟩
  · cases x <;> rfl

/-- C9: the `try_*` interning operations are total functions (they never
panic) and, whenever the pluggable interning capability reports failure,
they return the original value as the `Err` result with the same active
case and the same contained value — for the ephemeral arm the very
reference that was offered, for the owned arm whatever the capability
hands back, which is the original under the capability's give-back
contract (hypothesis `h3`).  On success the result is the static case,
at a type whose ephemeral and owned markers are `No` — the static case
is the only statically possible one. -/
theorem c9_try_intern_failure_returns_original
    {me ms mo eI sI oI : Type}
    [Maybe me eI] [Maybe ms sI] [Maybe mo oI]
    [TryInternRef eI sI] [TryIntern oI sI]
    (e₁ e₂ : me) (t : sI) (o : mo)
    (h1 : MTryInternRef.try_intern_ref (τ := sI) e₁ = none)
    (h2 : MTryInternRef.try_intern_ref (τ := sI) e₂ = some t)
    (h3 : MTryIntern.try_intern (τ := sI) o = Except.error o) :
    Eso.try_intern_ephemeral (Eso.E e₁ : Eso me ms mo) = .error (Eso.E e₁)
      ∧ Eso.try_intern (Eso.E e₁ : Eso me ms mo) = .error (Eso.E e₁)
      ∧ Eso.try_intern_ephemeral (Eso.E e₂ : Eso me ms mo) = .ok (Eso.S (An.mk t))
      ∧ (Eso.S (An.mk t) : Eso (No eI) (An sI) (No oI)).is_static = true
      ∧ (∀ o' : mo,
        Eso.try_intern_ephemeral (Eso.O o' : Eso me ms mo) = .error (Eso.O o'))
      ∧ Eso.try_intern (Eso.O o : Eso me ms mo) = .error (Eso.O o)
      ∧ (∀ s : ms,
        Eso.try_intern_ephemeral (Eso.S s : Eso me ms mo) =
          .ok (Eso.S (An.mk (Maybe.unwrap s)))) := by
  refine ⟨?_, ?_, ?_, rfl, fun o' => rfl, ?_, fun s => rfl⟩
  · simp only [Eso.try_intern_ephemeral, h1]
  · simp only [Eso.try_intern, h1]
  · simp only [Eso.try_intern_ephemeral, h2]
  · simp only [Eso.try_intern, h3]

/-- C9 witness: with the concrete even-only interning capability on
`Nat`, applying the theorem at `3` (rejected) and `4` (accepted). -/
theorem c9_witness :
    Eso.try_intern_ephemeral (Eso.E (An.mk 3) : Eso (An Nat) (An Nat) (An Nat)) =
        .error (Eso.E (An.mk 3))
      ∧ Eso.try_intern (Eso.O (An.mk 3) : Eso (An Nat) (An Nat) (An Nat)) =
        .error (Eso.O (An.mk 3))
      ∧ Eso.try_intern_ephemeral (Eso.E (An.mk 4) : Eso (An Nat) (An Nat) (An Nat)) =
        .ok (Eso.S (An.mk 4)) := by
  have h := @c9_try_intern_failure_returns_original
    (An Nat) (An Nat) (An Nat) Nat Nat Nat _ _ _ _ _
    (An.mk 3) (An.mk 4) 4 (An.mk 3) rfl rfl rfl
  exact ⟨h.1, h.2.2.2.2.2.1, h.2.2.1⟩
